import Mathlib

/-!
Shallow embedding of `src/rustsec/src/cached_index.rs`: the `CachedIndex`
yank-status cache over a crates.io registry index, with its three backends
(remote git, cached sparse, remote sparse), batch population, per-package
yank resolution, and lock-policy selection.

External collaborators (the `tame_index` backends, the HTTP client, the
tokio runtime, the gix lock) are modelled as records of pure functions,
so a backend is an arbitrary deterministic environment.  Rustsec types
that are not part of the inspected sources (`package::Name`, `Package`,
the error module) are modelled from the spec, as marked on each one.
-/

set_option linter.unusedVariables false

namespace Rustsec

/-- Package names.  Modelled from the spec: `PackageName` is an opaque
interned string identity (`rustsec::package::Name` is outside the inspected
sources). -/
abbrev Name := String

/-- Error kinds.  Modelled from the spec: the rustsec error module is outside
the inspected sources; the kinds the spec names for this component are
`NotFound`, `Registry`, `LockTimeout` and IO errors. -/
inductive ErrorKind
  | notFound
  | registry
  | lockTimeout
  | ioErr
  deriving DecidableEq, Repr

/-- An error value: a kind together with its display message.
Modelled from the spec: errors wrap a cause rendered as a message. -/
structure Error where
  kind : ErrorKind
  msg : String
  deriving DecidableEq, Repr

/-- A package identity.  Modelled from the spec: `Package` is an immutable
(name, version) pair with a total order (name then version); versions are
opaque strings, never parsed as semver. -/
structure Package where
  name : Name
  version : String
  deriving DecidableEq, Repr

/-- The sort key realising the spec total order on packages:
lexicographic on (name, version). -/
def Package.key (p : Package) : Lex (String × String) := toLex (p.name, p.version)

theorem Package.key_injective : Function.Injective Package.key := by
  intro a b h
  cases a; cases b
  simpa [Package.key, Prod.ext_iff] using h

instance : LinearOrder Package := LinearOrder.lift' Package.key Package.key_injective

theorem Package.lt_def (a b : Package) :
    a < b ↔ a.name < b.name ∨ (a.name = b.name ∧ a.version < b.version) :=
  Prod.Lex.lt_iff (a.name, a.version) (b.name, b.version)

/-- One version record of an index crate entry (`tame_index::IndexVersion`):
the version string and its yanked flag. -/
structure KrateVersion where
  version : String
  yanked : Bool
  deriving DecidableEq, Repr

/-- `KrateVersion.is_yanked` reads the yanked flag. -/
def KrateVersion.is_yanked (v : KrateVersion) : Bool := v.yanked

/-- The per-crate index metadata (`tame_index::IndexKrate`): its list of
version records. -/
structure IndexKrate where
  versions : List KrateVersion
  deriving DecidableEq, Repr

/-- Association-list insert with overwrite, modelling `HashMap::insert`
(and `collect` into a `HashMap`, where a later key overwrites an earlier
one). -/
def alistInsert {β : Type} (k : Name) (v : β) : List (Name × β) → List (Name × β)
  | [] => [(k, v)]
  | (k2, v2) :: rest =>
      if k = k2 then (k, v) :: rest else (k2, v2) :: alistInsert k v rest

/-- Association-list lookup, modelling `HashMap::get` / indexing. -/
def alistLookup {β : Type} (k : Name) : List (Name × β) → Option β
  | [] => none
  | (k2, v2) :: rest => if k = k2 then some v2 else alistLookup k rest

/-- The inner cache value: logically `HashMap<Version, IsYanked>`. -/
abbrev VersionMap := List (String × Bool)

/-- One cache entry: `Result<Option<HashMap<String, bool>>, Error>`. -/
abbrev Entry := Except Error (Option VersionMap)

/-- `BTreeSet` insertion: keep the list strictly sorted; an element equal to
a present one is dropped (the existing element is kept). -/
def btreeInsert {α : Type} [LinearOrder α] (x : α) : List α → List α
  | [] => [x]
  | y :: ys =>
      if x < y then x :: y :: ys
      else if y < x then y :: btreeInsert x ys
      else y :: ys

/-- Collecting an iterator into a `BTreeSet`, then iterating it in ascending
order: fold the inserts, yielding a strictly sorted, deduplicated list. -/
def btreeOfList {α : Type} [LinearOrder α] (l : List α) : List α :=
  l.foldl (fun s x => btreeInsert x s) []

/-- A remote git index after opening (`tame_index::index::RemoteGitIndex`),
modelled by its two capabilities used here: the per-name blob read
(`krate(name, true)`) and the outcome of `fetch()`. -/
structure RemoteGitIndex where
  krate : Name → Except Error (Option IndexKrate)
  fetchOutcome : Except Error Unit

/-- A local sparse index (`tame_index::index::SparseIndex`), modelled by its
local-cache-only read `cached_krate`. -/
structure SparseIndex where
  cached_krate : Name → Except Error (Option IndexKrate)

/-- A remote sparse index (`tame_index::index::AsyncRemoteSparseIndex`),
modelled by its local-cache-only read `cached_krate`, the ambient outcome of
`tokio::runtime::Runtime::new()`, and the networked batch request
`krates_blocking(names, true, REQUEST_TIMEOUT)` returning one result per
name.  Only `krates_blocking` touches the network. -/
structure RemoteSparseIndex where
  cached_krate : Name → Except Error (Option IndexKrate)
  runtime_new : Except String Unit
  krates_blocking : List Name → Except String (List (Name × Except Error (Option IndexKrate)))

/-- The backend enum `Index` from the source: `Git`, `SparseCached`,
`SparseRemote`. -/
inductive Index
  | git (gi : RemoteGitIndex)
  | sparseCached (si : SparseIndex)
  | sparseRemote (rsi : RemoteSparseIndex)

/-- `Index::krate`: dispatch the single-name lookup.  Git reads the
repository blob; both sparse variants read only the local cache
(`cached_krate`).  The `KrateName` conversion is modelled as the identity,
since a `package::Name` is already a valid crate name (spec: opaque interned
identity). -/
def Index.krate : Index → Name → Except Error (Option IndexKrate)
  | .git gi, name => gi.krate name
  | .sparseCached si, name => si.cached_krate name
  | .sparseRemote rsi, name => rsi.cached_krate name

/-- The `CachedIndex`: a backend plus the in-memory cache mapping each
package name to its entry. -/
structure CachedIndex where
  index : Index
  cache : List (Name × Entry)

/-- Instrumentation: one record per backend query performed.  `single` is an
`Index::krate` call (a repository/local-cache read, or a git blob read);
`batch` is one `krates_blocking` networked bulk request. -/
inductive FetchEvent
  | single (name : Name)
  | batch (names : List Name)
  deriving DecidableEq, Repr

/-- Result of one stateful operation: its value, the updated `CachedIndex`,
and the backend queries it performed. -/
structure YankStep (α : Type) where
  res : α
  state : CachedIndex
  events : List FetchEvent

/-- The version-to-yanked map extracted from crate metadata:
`ik.versions.into_iter().map(|v| (v.version.to_string(), v.is_yanked())).collect()`,
a later duplicate version string overwriting an earlier one. -/
def versionMapOf (ik : IndexKrate) : VersionMap :=
  ik.versions.foldl (fun m v => alistInsert v.version v.is_yanked m) []

/-- The entry transformation done by `CachedIndex::insert`: map the raw
crate metadata, when present, to its version-to-yanked map. -/
def transformEntry (krate_res : Except Error (Option IndexKrate)) : Entry :=
  krate_res.map (fun ik => ik.map versionMapOf)

/-- `CachedIndex::insert`: transform the fetch result and store it under the
package name, overwriting any prior entry. -/
def CachedIndex.insert (ci : CachedIndex) (package : Name)
    (krate_res : Except Error (Option IndexKrate)) : CachedIndex :=
  { ci with cache := alistInsert package (transformEntry krate_res) ci.cache }

/-- `CachedIndex::populate_cache`: for the git and cached-sparse backends,
query `Index::krate` once per name and store every outcome; for the remote
sparse backend, start a runtime and issue one `krates_blocking` batch,
storing every per-name outcome.  Wholesale failures (runtime construction,
batch acquisition) are reported as `Registry` errors without touching the
cache. -/
def CachedIndex.populate_cache (ci : CachedIndex) (packages : List Name) :
    YankStep (Except Error Unit) :=
  match ci.index with
  | .git _ | .sparseCached _ =>
      ⟨.ok (), packages.foldl (fun c pkg => c.insert pkg (c.index.krate pkg)) ci,
        packages.map FetchEvent.single⟩
  | .sparseRemote rsi =>
      match rsi.runtime_new with
      | .error err =>
          ⟨.error ⟨.registry, "unable to start a tokio runtime: " ++ err⟩, ci, []⟩
      | .ok () =>
          match rsi.krates_blocking packages with
          | .error err =>
              ⟨.error ⟨.registry, "unable to acquire tokio runtime: " ++ err⟩, ci, []⟩
          | .ok results =>
              ⟨.ok (), results.foldl (fun c nr => c.insert nr.1 nr.2) ci,
                [FetchEvent.batch packages]⟩

/-- The NotFound error for a version absent from a present crate. -/
def noSuchVersionErr (p : Package) : Error :=
  ⟨.notFound, "No such version in crates.io index: " ++ p.name ++ " " ++ p.version⟩

/-- The NotFound error for an absent crate. -/
def noSuchCrateErr (p : Package) : Error :=
  ⟨.notFound, "No such crate in crates.io index: " ++ p.name⟩

/-- The Registry error wrapping a cached per-crate failure. -/
def registryWrapErr (p : Package) (err : Error) : Error :=
  ⟨.registry, "Failed to retrieve " ++ p.name ++ " from crates.io index: " ++ err.msg⟩

/-- The match block of `CachedIndex::is_yanked` reading the cache entry for
the package name: present version yields its yanked flag, absent version or
absent crate yield NotFound errors, a stored error is wrapped as a Registry
error. -/
def resolveCached (entry : Entry) (p : Package) : Except Error Bool :=
  match entry with
  | .ok (some ik) =>
      match alistLookup p.version ik with
      | some yanked => .ok yanked
      | none => .error (noSuchVersionErr p)
  | .ok none => .error (noSuchCrateErr p)
  | .error err => .error (registryWrapErr p err)

/-- `CachedIndex::is_yanked`: on a cache miss, perform one synchronous
`Index::krate` call and insert its result, then resolve the (now present)
entry; on a hit, resolve the stored entry with no backend query.  After the
miss-path insert, indexing the cache yields exactly the transformed fetch
result, which is what the resolution reads. -/
def CachedIndex.is_yanked (ci : CachedIndex) (package : Package) :
    YankStep (Except Error Bool) :=
  match alistLookup package.name ci.cache with
  | some entry => ⟨resolveCached entry package, ci, []⟩
  | none =>
      let res := ci.index.krate package.name
      ⟨resolveCached (transformEntry res) package,
        ci.insert package.name res, [FetchEvent.single package.name]⟩

/-- The per-package contribution of the `find_yanked` loop: not-yanked
packages are omitted, yanked ones are reported as successes, errors are
passed through. -/
def caseOut (r : Except Error Bool) (p : Package) : List (Except Error Package) :=
  match r with
  | .ok false => []
  | .ok true => [.ok p]
  | .error e => [.error e]

/-- The `for package in dedup_packages` loop of `find_yanked`, threading the
cache state left to right. -/
def CachedIndex.resolveAll (ci : CachedIndex) :
    List Package → YankStep (List (Except Error Package))
  | [] => ⟨[], ci, []⟩
  | p :: ps =>
      let s := ci.is_yanked p
      let rest := s.state.resolveAll ps
      ⟨caseOut s.res p ++ rest.res, rest.state, s.events ++ rest.events⟩

/-- The synthetic error prepended when population fails wholesale. -/
def downloadFailErr (e : Error) : Error :=
  ⟨.registry, "Failed to download crates.io index: " ++ e.msg
      ++ "\nData may be missing or stale when checking for yanked packages."⟩

/-- The deduplicated package set of `find_yanked`: the input collected into
a `BTreeSet<&Package>`, iterated in ascending (name, version) order. -/
def dedupOf (packages : List Package) : List Package := btreeOfList packages

/-- The distinct names of the deduplicated package set, collected into a
`BTreeSet<&Name>`. -/
def namesOf (packages : List Package) : List Name :=
  btreeOfList ((dedupOf packages).map Package.name)

/-- The prefix of the `find_yanked` output: empty on successful population,
one synthetic Registry error when population failed wholesale. -/
def preOf (r : Except Error Unit) : List (Except Error Package) :=
  match r with
  | .ok _ => []
  | .error e => [.error (downloadFailErr e)]

/-- `CachedIndex::find_yanked`: deduplicate the input packages into a
`BTreeSet`, derive the distinct names, populate the cache, prepend one
synthetic Registry error if population failed wholesale, then resolve every
deduplicated package in ascending order. -/
def CachedIndex.find_yanked (ci : CachedIndex) (packages : List Package) :
    YankStep (List (Except Error Package)) :=
  let dedup_packages := dedupOf packages
  let package_names := namesOf packages
  let pop := ci.populate_cache package_names
  let pre := preOf pop.res
  let loop := pop.state.resolveAll dedup_packages
  ⟨pre ++ loop.res, loop.state, pop.events ++ loop.events⟩

/-- The gix lock acquisition policy (`gix::lock::acquire::Fail`): fail at
once if the lock is held, or wait with backoff bounded by the duration. -/
inductive LockPolicy
  | failImmediately
  | afterDurationWithBackoff (d : Nat)
  deriving DecidableEq, Repr

/-- A git index location before opening (`tame_index::index::git::GitIndex`),
modelled by the outcome of `RemoteGitIndex::with_options` for each lock
policy (progress and interrupt arguments absorbed). -/
structure GitIndex where
  withOptions : LockPolicy → Except Error RemoteGitIndex

/-- An opaque HTTP client handle (`reqwest::Client`). -/
structure Client where
  mk ::

/-- A client builder (`reqwest::ClientBuilder`), modelled by the outcome of
`.http2_prior_knowledge().build()`. -/
structure ClientBuilder where
  buildH2 : Except Error Client

/-- The discovered index form (`tame_index::index::ComboIndexCache`): a git
repository, a sparse index, or some other unrecognized form (the enum is
non-exhaustive). -/
inductive ComboIndexCache
  | git (gi : GitIndex)
  | sparse (si : SparseIndex)
  | other

/-- Outcome of `open_inner` / `fetch_inner`: a constructed `CachedIndex`, a
returned error, or a Rust `panic!` with its message. -/
inductive OpenResult
  | okIdx (ci : CachedIndex)
  | err (e : Error)
  | panicked (msg : String)

/-- True exactly when the outcome is a returned error. -/
def OpenResult.isErr : OpenResult → Bool
  | .err _ => true
  | _ => false

/-- True exactly when the outcome is a Rust `panic!`. -/
def OpenResult.isPanicked : OpenResult → Bool
  | .panicked _ => true
  | _ => false

/-- `new_remote_git_index`: select the lock policy from the timeout
(durations modelled as natural numbers; zero means
`Duration::from_secs(0)`), then open the remote git index with it. -/
def new_remote_git_index (index : GitIndex) (lock_timeout : Nat) :
    Except Error RemoteGitIndex :=
  let lock_policy :=
    if lock_timeout = 0 then LockPolicy.failImmediately
    else LockPolicy.afterDurationWithBackoff lock_timeout
  index.withOptions lock_policy

/-- `CachedIndex::open_inner`: the location discovery
(`ComboIndexCache::new`, which can itself error) is the `combo` argument.  A
git form is opened with the selected lock policy; a sparse form is used
cache-only; any other form hits the `panic!` arm. -/
def open_inner (combo : Except Error ComboIndexCache) (lock_timeout : Nat) :
    OpenResult :=
  match combo with
  | .error e => .err e
  | .ok (.git gi) =>
      match new_remote_git_index gi lock_timeout with
      | .ok rgi => .okIdx ⟨.git rgi, []⟩
      | .error e => .err e
  | .ok (.sparse si) => .okIdx ⟨.sparseCached si, []⟩
  | .ok .other => .panicked "Unsupported crates.io index type"

/-- `CachedIndex::fetch_inner`: like `open_inner` but a git index is fetched
after opening, and a sparse form is paired with a freshly built HTTP/2
client into a remote sparse index.  `mkRemote` models the external
`AsyncRemoteSparseIndex::new` constructor and `defaultCB` the external
`ClientBuilder::default()`. -/
def fetch_inner (mkRemote : SparseIndex → Client → RemoteSparseIndex)
    (defaultCB : ClientBuilder) (client : Option ClientBuilder)
    (combo : Except Error ComboIndexCache) (lock_timeout : Nat) : OpenResult :=
  match combo with
  | .error e => .err e
  | .ok (.git gi) =>
      match new_remote_git_index gi lock_timeout with
      | .error e => .err e
      | .ok rgi =>
          match rgi.fetchOutcome with
          | .error e => .err e
          | .ok () => .okIdx ⟨.git rgi, []⟩
  | .ok (.sparse si) =>
      match (client.getD defaultCB).buildH2 with
      | .error e => .err e
      | .ok c => .okIdx ⟨.sparseRemote (mkRemote si c), []⟩
  | .ok .other => .panicked "Unsupported crates.io index type"

/-- Equality of per-package outputs is decidable (used to count output
entries). -/
instance : DecidableEq (Except Error Package) := fun a b =>
  match a, b with
  | .error x, .error y =>
      if h : x = y then .isTrue (by rw [h])
      else .isFalse (fun hc => h (by cases hc; rfl))
  | .ok x, .ok y =>
      if h : x = y then .isTrue (by rw [h])
      else .isFalse (fun hc => h (by cases hc; rfl))
  | .error _, .ok _ => .isFalse (fun hc => Except.noConfusion hc)
  | .ok _, .error _ => .isFalse (fun hc => Except.noConfusion hc)

/-- Test fixture: a crate whose only version 1.0.0 is yanked. -/
def yankedKrate : IndexKrate := ⟨[⟨"1.0.0", true⟩]⟩

/-- Test fixture: a git backend knowing exactly the crate `foo`. -/
def giFoo : RemoteGitIndex :=
  ⟨fun n => if n = "foo" then .ok (some yankedKrate) else .ok none, .ok ()⟩

/-- Test fixture: a freshly opened git-backed `CachedIndex`. -/
def ciFoo : CachedIndex := ⟨.git giFoo, []⟩

/-- Test fixture: the package foo 1.0.0. -/
def pFoo : Package := ⟨"foo", "1.0.0"⟩

/-- Test fixture: a remote sparse backend whose runtime cannot be started,
with crate `foo` present in its local cache. -/
def rsiDown : RemoteSparseIndex :=
  ⟨fun n => if n = "foo" then .ok (some yankedKrate) else .ok none,
    .error "no runtime", fun _ => .error "unused"⟩

/-- Test fixture: a remote-sparse-backed `CachedIndex` whose batch path is
unavailable. -/
def ciDown : CachedIndex := ⟨.sparseRemote rsiDown, []⟩

/-- Test fixture: a git index location whose lock is held by another
process: immediate acquisition fails, waiting succeeds. -/
def giHeld : GitIndex :=
  ⟨fun pol =>
    match pol with
    | .failImmediately => .error ⟨.lockTimeout, "lock is held"⟩
    | .afterDurationWithBackoff _ => .ok giFoo⟩

/-- Test fixture: a git backend failing for crate `aaa` and knowing the
yanked crate `bbb`. -/
def giAB : RemoteGitIndex :=
  ⟨fun n =>
    if n = "aaa" then .error ⟨.ioErr, "disk read failed"⟩
    else .ok (some yankedKrate), .ok ()⟩

/-- Test fixture: a remote sparse backend with an empty local cache. -/
def rsiEmpty : RemoteSparseIndex :=
  ⟨fun _ => .ok none, .ok (), fun _ => .error "offline"⟩

/-- Test fixture: the package aaa 1.0.0, whose crate fetch fails on `giAB`. -/
def pAaa : Package := ⟨"aaa", "1.0.0"⟩

/-- Test fixture: the package bbb 1.0.0, yanked on `giAB`. -/
def pBbb : Package := ⟨"bbb", "1.0.0"⟩

/-- The locally-reading backends (git repository and cached sparse), whose
population path loops over `Index::krate` instead of batching. -/
def Index.isLocalRead : Index → Bool
  | .git _ => true
  | .sparseCached _ => true
  | .sparseRemote _ => false

/-- The entry a lookup for `n` would effectively resolve against: the cached
entry when present, otherwise the transformed result of the fallback
`Index::krate` call. -/
def CachedIndex.effectiveEntry (ci : CachedIndex) (n : Name) : Entry :=
  match alistLookup n ci.cache with
  | some e => e
  | none => transformEntry (ci.index.krate n)

/-- The population result, which depends only on the backend: always `Ok`
for the locally-reading backends, and an error exactly when the runtime or
the batch request cannot be obtained. -/
def populateRes (idx : Index) (packages : List Name) : Except Error Unit :=
  match idx with
  | .git _ | .sparseCached _ => .ok ()
  | .sparseRemote rsi =>
      match rsi.runtime_new with
      | .error err => .error ⟨.registry, "unable to start a tokio runtime: " ++ err⟩
      | .ok () =>
          match rsi.krates_blocking packages with
          | .error err => .error ⟨.registry, "unable to acquire tokio runtime: " ++ err⟩
          | .ok _ => .ok ()

/-- The last value assigned to key `n` by a sequence of inserts. -/
def lastAssign {β : Type} : List (Name × β) → Name → Option β
  | [], _ => none
  | nr :: rest, n =>
      match lastAssign rest n with
      | some r => some r
      | none => if nr.1 = n then some nr.2 else none

/-- The cache override population performs for name `n`: the stored fetch
result when population reached `n`, `none` when it failed wholesale or never
touched `n`. -/
def popOverride (idx : Index) (packages : List Name) (n : Name) : Option Entry :=
  match idx with
  | .git _ | .sparseCached _ =>
      if n ∈ packages then some (transformEntry (idx.krate n)) else none
  | .sparseRemote rsi =>
      match rsi.runtime_new with
      | .error _ => none
      | .ok () =>
          match rsi.krates_blocking packages with
          | .error _ => none
          | .ok results => (lastAssign results n).map transformEntry

theorem alistLookup_insert {β : Type} (k k2 : Name) (v : β) (l : List (Name × β)) :
    alistLookup k (alistInsert k2 v l) = if k = k2 then some v else alistLookup k l := by
  induction l with
  | nil => simp [alistInsert, alistLookup]
  | cons hd tl ih =>
      obtain ⟨k3, v3⟩ := hd
      by_cases h2 : k2 = k3
      · subst h2
        by_cases hk : k = k2 <;> simp [alistInsert, alistLookup, hk]
      · by_cases hk : k = k3
        · subst hk
          have : ¬ k = k2 := fun h => h2 h.symm
          simp [alistInsert, alistLookup, h2, this]
        · simp [alistInsert, alistLookup, h2, hk, ih]

theorem mem_btreeInsert {α : Type} [LinearOrder α] (a x : α) (l : List α) :
    a ∈ btreeInsert x l ↔ a = x ∨ a ∈ l := by
  induction l with
  | nil => simp [btreeInsert]
  | cons y ys ih =>
      by_cases h1 : x < y
      · simp [btreeInsert, h1]
      · by_cases h2 : y < x
        · simp [btreeInsert, h1, h2, ih]
          tauto
        · have hxy : x = y := le_antisymm (not_lt.mp h2) (not_lt.mp h1)
          subst hxy
          simp [btreeInsert, h1, h2]

theorem sorted_btreeInsert {α : Type} [LinearOrder α] (x : α) (l : List α)
    (h : l.Sorted (· < ·)) : (btreeInsert x l).Sorted (· < ·) := by
  induction l with
  | nil => simp [btreeInsert]
  | cons y ys ih =>
      rw [List.sorted_cons] at h
      obtain ⟨hy, hys⟩ := h
      by_cases h1 : x < y
      · rw [btreeInsert, if_pos h1, List.sorted_cons]
        refine ⟨?_, List.sorted_cons.mpr ⟨hy, hys⟩⟩
        intro b hb
        rcases List.mem_cons.mp hb with hb | hb
        · exact hb ▸ h1
        · exact lt_trans h1 (hy b hb)
      · by_cases h2 : y < x
        · rw [btreeInsert, if_neg h1, if_pos h2, List.sorted_cons]
          refine ⟨?_, ih hys⟩
          intro b hb
          rcases (mem_btreeInsert b x ys).mp hb with hb | hb
          · exact hb ▸ h2
          · exact hy b hb
        · rw [btreeInsert, if_neg h1, if_neg h2]
          exact List.sorted_cons.mpr ⟨hy, hys⟩

theorem sorted_foldl_btreeInsert {α : Type} [LinearOrder α] (l acc : List α)
    (h : acc.Sorted (· < ·)) :
    (l.foldl (fun s x => btreeInsert x s) acc).Sorted (· < ·) := by
  induction l generalizing acc with
  | nil => exact h
  | cons x xs ih => exact ih _ (sorted_btreeInsert x acc h)

theorem sorted_btreeOfList {α : Type} [LinearOrder α] (l : List α) :
    (btreeOfList l).Sorted (· < ·) :=
  sorted_foldl_btreeInsert l [] (by simp)

theorem mem_foldl_btreeInsert {α : Type} [LinearOrder α] (a : α) (l acc : List α) :
    a ∈ l.foldl (fun s x => btreeInsert x s) acc ↔ a ∈ acc ∨ a ∈ l := by
  induction l generalizing acc with
  | nil => simp
  | cons x xs ih =>
      simp only [List.foldl_cons, ih, mem_btreeInsert, List.mem_cons]
      tauto

theorem mem_btreeOfList {α : Type} [LinearOrder α] (a : α) (l : List α) :
    a ∈ btreeOfList l ↔ a ∈ l := by
  rw [btreeOfList, mem_foldl_btreeInsert]
  simp

theorem nodup_btreeOfList {α : Type} [LinearOrder α] (l : List α) :
    (btreeOfList l).Nodup :=
  (sorted_btreeOfList l).nodup

theorem insert_index (ci : CachedIndex) (n : Name)
    (r : Except Error (Option IndexKrate)) : (ci.insert n r).index = ci.index := rfl

theorem is_yanked_res (ci : CachedIndex) (p : Package) :
    (ci.is_yanked p).res = resolveCached (ci.effectiveEntry p.name) p := by
  unfold CachedIndex.is_yanked CachedIndex.effectiveEntry
  cases h : alistLookup p.name ci.cache <;> simp [h]

theorem is_yanked_index (ci : CachedIndex) (p : Package) :
    (ci.is_yanked p).state.index = ci.index := by
  unfold CachedIndex.is_yanked
  cases h : alistLookup p.name ci.cache <;> simp [h, insert_index]

theorem is_yanked_eff (ci : CachedIndex) (p : Package) (m : Name) :
    (ci.is_yanked p).state.effectiveEntry m = ci.effectiveEntry m := by
  unfold CachedIndex.is_yanked
  cases h : alistLookup p.name ci.cache with
  | some e => simp [h]
  | none =>
      simp only [h]
      unfold CachedIndex.effectiveEntry
      show (match alistLookup m ((ci.insert p.name (ci.index.krate p.name)).cache) with
        | some e => e
        | none => transformEntry ((ci.insert p.name (ci.index.krate p.name)).index.krate m)) = _
      rw [insert_index]
      show (match alistLookup m (alistInsert p.name
          (transformEntry (ci.index.krate p.name)) ci.cache) with
        | some e => e
        | none => transformEntry (ci.index.krate m)) = _
      rw [alistLookup_insert]
      by_cases hm : m = p.name
      · subst hm
        simp [h]
      · simp [hm]

theorem is_yanked_lookup_mono (ci : CachedIndex) (p : Package) (n : Name)
    (h : (alistLookup n ci.cache).isSome) :
    (alistLookup n (ci.is_yanked p).state.cache).isSome := by
  unfold CachedIndex.is_yanked
  cases hc : alistLookup p.name ci.cache with
  | some e => simpa [hc] using h
  | none =>
      simp only [hc, CachedIndex.insert]
      rw [alistLookup_insert]
      by_cases hn : n = p.name <;> simp [hn, h]

theorem is_yanked_self_present (ci : CachedIndex) (p : Package) :
    (alistLookup p.name (ci.is_yanked p).state.cache).isSome := by
  unfold CachedIndex.is_yanked
  cases hc : alistLookup p.name ci.cache with
  | some e => simp [hc]
  | none =>
      simp only [hc, CachedIndex.insert]
      rw [alistLookup_insert]
      simp

theorem resolveAll_index (ci : CachedIndex) (ps : List Package) :
    (ci.resolveAll ps).state.index = ci.index := by
  induction ps generalizing ci with
  | nil => rfl
  | cons p ps ih =>
      show ((ci.is_yanked p).state.resolveAll ps).state.index = ci.index
      rw [ih, is_yanked_index]

theorem resolveAll_eff (ci : CachedIndex) (ps : List Package) (m : Name) :
    (ci.resolveAll ps).state.effectiveEntry m = ci.effectiveEntry m := by
  induction ps generalizing ci with
  | nil => rfl
  | cons p ps ih =>
      show ((ci.is_yanked p).state.resolveAll ps).state.effectiveEntry m = _
      rw [ih, is_yanked_eff]

theorem resolveAll_lookup_mono (ci : CachedIndex) (ps : List Package) (n : Name)
    (h : (alistLookup n ci.cache).isSome) :
    (alistLookup n (ci.resolveAll ps).state.cache).isSome := by
  induction ps generalizing ci with
  | nil => exact h
  | cons p ps ih =>
      exact ih (ci.is_yanked p).state (is_yanked_lookup_mono ci p n h)

theorem resolveAll_processed_present (ci : CachedIndex) (ps : List Package)
    (p : Package) (hp : p ∈ ps) :
    (alistLookup p.name (ci.resolveAll ps).state.cache).isSome := by
  induction ps generalizing ci with
  | nil => cases hp
  | cons q qs ih =>
      rcases List.mem_cons.mp hp with h | h
      · subst h
        exact resolveAll_lookup_mono _ qs p.name (is_yanked_self_present ci p)
      · exact ih (ci.is_yanked q).state h

theorem resolveAll_res_congr (ci cj : CachedIndex) (ps : List Package)
    (hidx : ci.index = cj.index)
    (heff : ∀ n, ci.effectiveEntry n = cj.effectiveEntry n) :
    (ci.resolveAll ps).res = (cj.resolveAll ps).res := by
  induction ps generalizing ci cj with
  | nil => rfl
  | cons p ps ih =>
      have h1 : (ci.is_yanked p).res = (cj.is_yanked p).res := by
        rw [is_yanked_res, is_yanked_res, heff]
      have h2 : ((ci.is_yanked p).state.resolveAll ps).res
          = ((cj.is_yanked p).state.resolveAll ps).res := by
        refine ih _ _ ?_ ?_
        · rw [is_yanked_index, is_yanked_index, hidx]
        · intro n
          rw [is_yanked_eff, is_yanked_eff, heff]
      show caseOut (ci.is_yanked p).res p ++ ((ci.is_yanked p).state.resolveAll ps).res
          = caseOut (cj.is_yanked p).res p ++ ((cj.is_yanked p).state.resolveAll ps).res
      rw [h1, h2]

theorem resolveAll_all_cached (ci : CachedIndex) (ps : List Package)
    (h : ∀ p ∈ ps, (alistLookup p.name ci.cache).isSome) :
    ci.resolveAll ps
      = ⟨ps.flatMap (fun p => caseOut (resolveCached (ci.effectiveEntry p.name) p) p),
          ci, []⟩ := by
  induction ps with
  | nil => rfl
  | cons p ps ih =>
      obtain ⟨e, he⟩ := Option.isSome_iff_exists.mp (h p (List.mem_cons_self p ps))
      have hiy : ci.is_yanked p = ⟨resolveCached e p, ci, []⟩ := by
        unfold CachedIndex.is_yanked
        simp [he]
      have heff : ci.effectiveEntry p.name = e := by
        unfold CachedIndex.effectiveEntry
        simp [he]
      have hrest := ih (fun q hq => h q (List.mem_cons_of_mem p hq))
      show (⟨caseOut (ci.is_yanked p).res p ++ ((ci.is_yanked p).state.resolveAll ps).res,
          ((ci.is_yanked p).state.resolveAll ps).state,
          (ci.is_yanked p).events ++ ((ci.is_yanked p).state.resolveAll ps).events⟩
            : YankStep _) = _
      rw [hiy]
      simp only [List.flatMap_cons, heff]
      rw [hrest]
      simp

theorem foldl_insert_krate_index (packages : List Name) (ci : CachedIndex) :
    (packages.foldl (fun c pkg => c.insert pkg (c.index.krate pkg)) ci).index
      = ci.index := by
  induction packages generalizing ci with
  | nil => rfl
  | cons a as ih => rw [List.foldl_cons, ih, insert_index]

theorem foldl_insert_krate_lookup (packages : List Name) (ci : CachedIndex) (n : Name) :
    alistLookup n (packages.foldl (fun c pkg => c.insert pkg (c.index.krate pkg)) ci).cache
      = if n ∈ packages then some (transformEntry (ci.index.krate n))
        else alistLookup n ci.cache := by
  induction packages generalizing ci with
  | nil => simp
  | cons a as ih =>
      rw [List.foldl_cons, ih]
      simp only [insert_index, CachedIndex.insert, alistLookup_insert]
      by_cases hin : n ∈ as
      · simp [hin]
      · by_cases hna : n = a
        · subst hna
          simp [hin]
        · simp [hin, hna]

theorem foldl_insert_results_index
    (results : List (Name × Except Error (Option IndexKrate))) (ci : CachedIndex) :
    (results.foldl (fun c nr => c.insert nr.1 nr.2) ci).index = ci.index := by
  induction results generalizing ci with
  | nil => rfl
  | cons a rs ih => rw [List.foldl_cons, ih, insert_index]

theorem foldl_insert_results_lookup
    (results : List (Name × Except Error (Option IndexKrate))) (ci : CachedIndex) (n : Name) :
    alistLookup n (results.foldl (fun c nr => c.insert nr.1 nr.2) ci).cache
      = match lastAssign results n with
        | some r => some (transformEntry r)
        | none => alistLookup n ci.cache := by
  induction results generalizing ci with
  | nil => rfl
  | cons a rs ih =>
      rw [List.foldl_cons, ih]
      simp only [CachedIndex.insert, alistLookup_insert, lastAssign]
      cases lastAssign rs n with
      | some r => rfl
      | none =>
          by_cases hna : n = a.1
          · simp [hna]
          · have hna2 : ¬ a.1 = n := fun h => hna h.symm
            simp [hna, hna2]

theorem populate_res (ci : CachedIndex) (packages : List Name) :
    (ci.populate_cache packages).res = populateRes ci.index packages := by
  obtain ⟨idx, cache⟩ := ci
  cases idx with
  | git gi => rfl
  | sparseCached si => rfl
  | sparseRemote rsi =>
      cases hrt : rsi.runtime_new with
      | error e => simp [CachedIndex.populate_cache, populateRes, hrt]
      | ok u =>
          cases u
          cases hkb : rsi.krates_blocking packages with
          | error e => simp [CachedIndex.populate_cache, populateRes, hrt, hkb]
          | ok results => simp [CachedIndex.populate_cache, populateRes, hrt, hkb]

theorem populate_index (ci : CachedIndex) (packages : List Name) :
    (ci.populate_cache packages).state.index = ci.index := by
  obtain ⟨idx, cache⟩ := ci
  cases idx with
  | git gi =>
      show (packages.foldl (fun (c : CachedIndex) pkg => c.insert pkg (c.index.krate pkg))
        (⟨.git gi, cache⟩ : CachedIndex)).index = _
      rw [foldl_insert_krate_index]
  | sparseCached si =>
      show (packages.foldl (fun (c : CachedIndex) pkg => c.insert pkg (c.index.krate pkg))
        (⟨.sparseCached si, cache⟩ : CachedIndex)).index = _
      rw [foldl_insert_krate_index]
  | sparseRemote rsi =>
      cases hrt : rsi.runtime_new with
      | error e => simp [CachedIndex.populate_cache, hrt]
      | ok u =>
          cases u
          cases hkb : rsi.krates_blocking packages with
          | error e => simp [CachedIndex.populate_cache, hrt, hkb]
          | ok results =>
              simp only [CachedIndex.populate_cache, hrt, hkb]
              rw [foldl_insert_results_index]

theorem populate_lookup (ci : CachedIndex) (packages : List Name) (n : Name) :
    alistLookup n (ci.populate_cache packages).state.cache
      = match popOverride ci.index packages n with
        | some e => some e
        | none => alistLookup n ci.cache := by
  obtain ⟨idx, cache⟩ := ci
  cases idx with
  | git gi =>
      show alistLookup n (packages.foldl (fun (c : CachedIndex) pkg => c.insert pkg (c.index.krate pkg))
        (⟨.git gi, cache⟩ : CachedIndex)).cache = _
      rw [foldl_insert_krate_lookup]
      by_cases hin : n ∈ packages <;> simp [popOverride, hin]
  | sparseCached si =>
      show alistLookup n (packages.foldl (fun (c : CachedIndex) pkg => c.insert pkg (c.index.krate pkg))
        (⟨.sparseCached si, cache⟩ : CachedIndex)).cache = _
      rw [foldl_insert_krate_lookup]
      by_cases hin : n ∈ packages <;> simp [popOverride, hin]
  | sparseRemote rsi =>
      cases hrt : rsi.runtime_new with
      | error e => simp [CachedIndex.populate_cache, popOverride, hrt]
      | ok u =>
          cases u
          cases hkb : rsi.krates_blocking packages with
          | error e => simp [CachedIndex.populate_cache, popOverride, hrt, hkb]
          | ok results =>
              simp only [CachedIndex.populate_cache, popOverride, hrt, hkb]
              rw [foldl_insert_results_lookup]
              cases lastAssign results n <;> rfl

theorem populate_eff (ci : CachedIndex) (packages : List Name) (n : Name) :
    (ci.populate_cache packages).state.effectiveEntry n
      = (popOverride ci.index packages n).getD (ci.effectiveEntry n) := by
  unfold CachedIndex.effectiveEntry
  rw [populate_lookup, populate_index]
  cases ho : popOverride ci.index packages n with
  | some e => simp
  | none => rfl

theorem populate_lookup_mono (ci : CachedIndex) (packages : List Name) (n : Name)
    (h : (alistLookup n ci.cache).isSome) :
    (alistLookup n (ci.populate_cache packages).state.cache).isSome := by
  rw [populate_lookup]
  cases popOverride ci.index packages n <;> simp [h]

theorem populate_error_state (ci : CachedIndex) (packages : List Name) (e : Error)
    (h : (ci.populate_cache packages).res = .error e) :
    (ci.populate_cache packages).state = ci := by
  obtain ⟨idx, cache⟩ := ci
  cases idx with
  | git gi => exact absurd h (by simp [CachedIndex.populate_cache])
  | sparseCached si => exact absurd h (by simp [CachedIndex.populate_cache])
  | sparseRemote rsi =>
      cases hrt : rsi.runtime_new with
      | error er => simp [CachedIndex.populate_cache, hrt]
      | ok u =>
          cases u
          cases hkb : rsi.krates_blocking packages with
          | error er => simp [CachedIndex.populate_cache, hrt, hkb]
          | ok results => exact absurd h (by simp [CachedIndex.populate_cache, hrt, hkb])

theorem find_yanked_all_cached (ci : CachedIndex) (pkgs : List Package)
    (h : ∀ q ∈ dedupOf pkgs,
      (alistLookup q.name ((ci.populate_cache (namesOf pkgs)).state.cache)).isSome) :
    ci.find_yanked pkgs
      = ⟨preOf (ci.populate_cache (namesOf pkgs)).res
            ++ (dedupOf pkgs).flatMap (fun p =>
                caseOut (resolveCached
                  ((ci.populate_cache (namesOf pkgs)).state.effectiveEntry p.name) p) p),
          (ci.populate_cache (namesOf pkgs)).state,
          (ci.populate_cache (namesOf pkgs)).events⟩ := by
  unfold CachedIndex.find_yanked
  dsimp only
  rw [resolveAll_all_cached _ _ h]
  simp

theorem find_yanked_res_eq (ci : CachedIndex) (pkgs : List Package) :
    (ci.find_yanked pkgs).res
      = preOf (ci.populate_cache (namesOf pkgs)).res
        ++ ((ci.populate_cache (namesOf pkgs)).state.resolveAll (dedupOf pkgs)).res := rfl

theorem find_yanked_state_eq (ci : CachedIndex) (pkgs : List Package) :
    (ci.find_yanked pkgs).state
      = ((ci.populate_cache (namesOf pkgs)).state.resolveAll (dedupOf pkgs)).state := rfl

theorem find_yanked_events_eq (ci : CachedIndex) (pkgs : List Package) :
    (ci.find_yanked pkgs).events
      = (ci.populate_cache (namesOf pkgs)).events
        ++ ((ci.populate_cache (namesOf pkgs)).state.resolveAll (dedupOf pkgs)).events := rfl

/-- C1: after population, every package of the deduplicated set resolves
against a present cache entry, and its outcome is exactly one of five
mutually exclusive cases: version present and not yanked gives no output
entry; version present and yanked gives a success entry carrying the
package; crate present but version absent gives a NotFound no-such-version
error; crate absent gives a NotFound no-such-crate error; a cached error
gives a Registry error wrapping the cause.  The whole output is the
population prefix followed by the per-package contributions. -/
theorem c1_five_query_outcomes (ci : CachedIndex) (pkgs : List Package) (p : Package)
    (hp : p ∈ dedupOf pkgs)
    (hcov : ∀ q ∈ dedupOf pkgs,
      (alistLookup q.name ((ci.populate_cache (namesOf pkgs)).state.cache)).isSome) :
    ∃ e : Entry,
      alistLookup p.name ((ci.populate_cache (namesOf pkgs)).state.cache) = some e ∧
      (ci.populate_cache (namesOf pkgs)).state.effectiveEntry p.name = e ∧
      (ci.find_yanked pkgs).res
        = preOf (ci.populate_cache (namesOf pkgs)).res
          ++ (dedupOf pkgs).flatMap (fun q =>
              caseOut (resolveCached
                ((ci.populate_cache (namesOf pkgs)).state.effectiveEntry q.name) q) q) ∧
      ((∃ m, e = .ok (some m) ∧ alistLookup p.version m = some false ∧
          caseOut (resolveCached e p) p = []) ∨
       (∃ m, e = .ok (some m) ∧ alistLookup p.version m = some true ∧
          caseOut (resolveCached e p) p = [.ok p]) ∨
       (∃ m, e = .ok (some m) ∧ alistLookup p.version m = none ∧
          caseOut (resolveCached e p) p = [.error (noSuchVersionErr p)]) ∨
       (e = .ok none ∧ caseOut (resolveCached e p) p = [.error (noSuchCrateErr p)]) ∨
       (∃ err, e = .error err ∧ caseOut (resolveCached e p) p
          = [.error (registryWrapErr p err)])) := by
  obtain ⟨e, he⟩ := Option.isSome_iff_exists.mp (hcov p hp)
  refine ⟨e, he, ?_, ?_, ?_⟩
  · unfold CachedIndex.effectiveEntry
    simp [he]
  · rw [find_yanked_all_cached ci pkgs hcov]
  · match e with
    | .error err =>
        exact Or.inr (Or.inr (Or.inr (Or.inr ⟨err, rfl, rfl⟩)))
    | .ok none =>
        exact Or.inr (Or.inr (Or.inr (Or.inl ⟨rfl, rfl⟩)))
    | .ok (some m) =>
        cases hv : alistLookup p.version m with
        | none =>
            refine Or.inr (Or.inr (Or.inl ⟨m, rfl, hv, ?_⟩))
            simp [resolveCached, caseOut, hv]
        | some b =>
            cases b with
            | false =>
                refine Or.inl ⟨m, rfl, hv, ?_⟩
                simp [resolveCached, caseOut, hv]
            | true =>
                refine Or.inr (Or.inl ⟨m, rfl, hv, ?_⟩)
                simp [resolveCached, caseOut, hv]

theorem c1_witness :
    ∃ e : Entry,
      alistLookup pFoo.name ((ciFoo.populate_cache (namesOf [pFoo])).state.cache) = some e ∧
      (ciFoo.populate_cache (namesOf [pFoo])).state.effectiveEntry pFoo.name = e ∧
      (ciFoo.find_yanked [pFoo]).res
        = preOf (ciFoo.populate_cache (namesOf [pFoo])).res
          ++ (dedupOf [pFoo]).flatMap (fun q =>
              caseOut (resolveCached
                ((ciFoo.populate_cache (namesOf [pFoo])).state.effectiveEntry q.name) q) q) ∧
      ((∃ m, e = .ok (some m) ∧ alistLookup pFoo.version m = some false ∧
          caseOut (resolveCached e pFoo) pFoo = []) ∨
       (∃ m, e = .ok (some m) ∧ alistLookup pFoo.version m = some true ∧
          caseOut (resolveCached e pFoo) pFoo = [.ok pFoo]) ∨
       (∃ m, e = .ok (some m) ∧ alistLookup pFoo.version m = none ∧
          caseOut (resolveCached e pFoo) pFoo = [.error (noSuchVersionErr pFoo)]) ∨
       (e = .ok none ∧ caseOut (resolveCached e pFoo) pFoo
          = [.error (noSuchCrateErr pFoo)]) ∨
       (∃ err, e = .error err ∧ caseOut (resolveCached e pFoo) pFoo
          = [.error (registryWrapErr pFoo err)])) :=
  c1_five_query_outcomes ciFoo [pFoo] pFoo
    (show pFoo ∈ [pFoo] from List.mem_singleton.mpr rfl)
    (by
      intro q hq
      have hq2 : q ∈ [pFoo] := hq
      rw [List.mem_singleton] at hq2
      subst hq2
      rfl)

/-- C9: the output of `find_yanked` is a deterministic function of the
backend responses, shaped as the optional synthetic registry-download error
first, followed by the per-package contributions of the deduplicated input
in ascending (name, version) order. -/
theorem c9_ordered_deterministic_output (ci : CachedIndex) (pkgs : List Package)
    (hcov : ∀ q ∈ dedupOf pkgs,
      (alistLookup q.name ((ci.populate_cache (namesOf pkgs)).state.cache)).isSome) :
    (ci.find_yanked pkgs).res
      = preOf (ci.populate_cache (namesOf pkgs)).res
        ++ (dedupOf pkgs).flatMap (fun q =>
            caseOut (resolveCached
              ((ci.populate_cache (namesOf pkgs)).state.effectiveEntry q.name) q) q) ∧
    List.Sorted (· < ·) (dedupOf pkgs) ∧
    (∀ a b : Package, a < b ↔ a.name < b.name ∨ (a.name = b.name ∧ a.version < b.version)) := by
  refine ⟨?_, sorted_btreeOfList pkgs, Package.lt_def⟩
  rw [find_yanked_all_cached ci pkgs hcov]

theorem c9_witness :
    (ciFoo.find_yanked [pFoo]).res
      = preOf (ciFoo.populate_cache (namesOf [pFoo])).res
        ++ (dedupOf [pFoo]).flatMap (fun q =>
            caseOut (resolveCached
              ((ciFoo.populate_cache (namesOf [pFoo])).state.effectiveEntry q.name) q) q) ∧
    List.Sorted (· < ·) (dedupOf [pFoo]) ∧
    (∀ a b : Package, a < b ↔ a.name < b.name ∨ (a.name = b.name ∧ a.version < b.version)) :=
  c9_ordered_deterministic_output ciFoo [pFoo]
    (by
      intro q hq
      have hq2 : q ∈ [pFoo] := hq
      rw [List.mem_singleton] at hq2
      subst hq2
      rfl)

/-- C2 counterexample: with a git backend and the single package foo 1.0.0,
the first `find_yanked` call leaves foo cached, yet the second call still
performs an index fetch for foo — `populate_cache` re-queries every name
unconditionally — refuting that a second call performs no index fetch for
names already present in the cache. -/
theorem c2_counterexample :
    (alistLookup "foo" ((ciFoo.find_yanked [pFoo]).state.cache)).isSome = true ∧
    ((ciFoo.find_yanked [pFoo]).state.find_yanked [pFoo]).events
      = [FetchEvent.single "foo"] :=
  ⟨rfl, rfl⟩

/-- C2 (amended): with an unchanged backend and the same package set, a
second `find_yanked` call returns a result sequence identical to the first
call; however, population re-queries the backend for every name of the set
on each call (overwriting the entries with identical values), and only the
per-package cache-miss fallback inside `is_yanked` performs no fetch on the
second call: all of the second call's fetch events come from its
`populate_cache` invocation. -/
theorem c2_idempotent_results_population_refetches (ci : CachedIndex) (pkgs : List Package) :
    ((ci.find_yanked pkgs).state.find_yanked pkgs).res = (ci.find_yanked pkgs).res ∧
    ((ci.find_yanked pkgs).state.find_yanked pkgs).events
      = ((ci.find_yanked pkgs).state.populate_cache (namesOf pkgs)).events := by
  have hS1idx : (ci.find_yanked pkgs).state.index = ci.index := by
    rw [find_yanked_state_eq, resolveAll_index, populate_index]
  have hcov2 : ∀ q ∈ dedupOf pkgs,
      (alistLookup q.name
        (((ci.find_yanked pkgs).state.populate_cache (namesOf pkgs)).state.cache)).isSome := by
    intro q hq
    apply populate_lookup_mono
    rw [find_yanked_state_eq]
    exact resolveAll_processed_present _ _ q hq
  have hloop2 := resolveAll_all_cached _ (dedupOf pkgs) hcov2
  constructor
  · rw [find_yanked_res_eq ((ci.find_yanked pkgs).state) pkgs, find_yanked_res_eq ci pkgs]
    have hpre : ((ci.find_yanked pkgs).state.populate_cache (namesOf pkgs)).res
        = (ci.populate_cache (namesOf pkgs)).res := by
      rw [populate_res, populate_res, hS1idx]
    rw [hpre]
    congr 1
    apply resolveAll_res_congr
    · rw [populate_index, populate_index, hS1idx]
    · intro n
      rw [populate_eff, populate_eff, hS1idx, find_yanked_state_eq, resolveAll_eff,
        populate_eff]
      cases popOverride ci.index (namesOf pkgs) n <;> simp
  · rw [find_yanked_events_eq, hloop2]
    simp

/-- C4: when `populate_cache` fails wholesale, `find_yanked` leaves the
cache untouched, prepends exactly one synthetic Registry error for the
registry-download failure, and still resolves every deduplicated package
against the pre-existing cache. -/
theorem c4_wholesale_failure_degrades_gracefully (ci : CachedIndex) (pkgs : List Package)
    (e : Error) (hfail : (ci.populate_cache (namesOf pkgs)).res = .error e) :
    (ci.find_yanked pkgs).res
      = .error (downloadFailErr e) :: (ci.resolveAll (dedupOf pkgs)).res ∧
    (ci.populate_cache (namesOf pkgs)).state = ci := by
  have hst := populate_error_state ci (namesOf pkgs) e hfail
  refine ⟨?_, hst⟩
  rw [find_yanked_res_eq, hfail, hst]
  rfl

theorem c4_witness :
    (ciDown.find_yanked [pFoo]).res
      = .error (downloadFailErr ⟨.registry, "unable to start a tokio runtime: no runtime"⟩)
          :: (ciDown.resolveAll (dedupOf [pFoo])).res ∧
    (ciDown.populate_cache (namesOf [pFoo])).state = ciDown :=
  c4_wholesale_failure_degrades_gracefully ciDown [pFoo]
    ⟨.registry, "unable to start a tokio runtime: no runtime"⟩ rfl

/-- C6: when a package name has no cache entry `is_yanked` performs exactly
one synchronous `Index::krate` query, inserts its transformed result before
resolving the package against it; when an entry exists — a stored error
included — `is_yanked` performs no index query, leaves the state unchanged
and answers from the stored entry. -/
theorem c6_miss_one_fetch_hit_no_fetch (ci : CachedIndex) (p : Package) :
    (∀ e, alistLookup p.name ci.cache = some e →
      ci.is_yanked p = ⟨resolveCached e p, ci, []⟩) ∧
    (alistLookup p.name ci.cache = none →
      (ci.is_yanked p).events = [FetchEvent.single p.name] ∧
      (ci.is_yanked p).state = ci.insert p.name (ci.index.krate p.name) ∧
      alistLookup p.name (ci.is_yanked p).state.cache
        = some (transformEntry (ci.index.krate p.name)) ∧
      (ci.is_yanked p).res
        = resolveCached (transformEntry (ci.index.krate p.name)) p) := by
  constructor
  · intro e he
    unfold CachedIndex.is_yanked
    simp [he]
  · intro hn
    have hstep : ci.is_yanked p
        = ⟨resolveCached (transformEntry (ci.index.krate p.name)) p,
            ci.insert p.name (ci.index.krate p.name), [FetchEvent.single p.name]⟩ := by
      unfold CachedIndex.is_yanked
      simp [hn]
    rw [hstep]
    refine ⟨rfl, rfl, ?_, rfl⟩
    simp only [CachedIndex.insert]
    rw [alistLookup_insert]
    simp

theorem c6_witness :
    (ciFoo.is_yanked pFoo).events = [FetchEvent.single pFoo.name] ∧
    ((ciFoo.is_yanked pFoo).state.is_yanked pFoo)
      = ⟨resolveCached (transformEntry (ciFoo.index.krate pFoo.name)) pFoo,
          (ciFoo.is_yanked pFoo).state, []⟩ :=
  ⟨((c6_miss_one_fetch_hit_no_fetch ciFoo pFoo).2 rfl).1,
    (c6_miss_one_fetch_hit_no_fetch (ciFoo.is_yanked pFoo).state pFoo).1
      (transformEntry (ciFoo.index.krate pFoo.name)) rfl⟩

/-- C3: per-crate failures are stored, never raised.  On the locally-reading
backends population always returns `Ok`; a failed fetch is stored as that
name's cache entry; and in one `find_yanked` over a failing crate A and a
yanked crate B, the output contains both the Registry error wrapping A's
failure and B's success entry. -/
theorem c3_per_crate_failure_isolated (gi : RemoteGitIndex) (A B : Package)
    (eA : Error) (ikB : IndexKrate)
    (hA : gi.krate A.name = .error eA)
    (hB : gi.krate B.name = .ok (some ikB))
    (hyB : alistLookup B.version (versionMapOf ikB) = some true) :
    (∀ (ci : CachedIndex) (ns : List Name), ci.index.isLocalRead = true →
        (ci.populate_cache ns).res = .ok ()) ∧
    alistLookup A.name
        (((⟨.git gi, []⟩ : CachedIndex).populate_cache [A.name]).state.cache)
      = some (.error eA) ∧
    .ok B ∈ ((⟨.git gi, []⟩ : CachedIndex).find_yanked [A, B]).res ∧
    .error (registryWrapErr A eA)
      ∈ ((⟨.git gi, []⟩ : CachedIndex).find_yanked [A, B]).res := by
  have hok : ∀ (ci : CachedIndex) (ns : List Name), ci.index.isLocalRead = true →
      (ci.populate_cache ns).res = .ok () := by
    intro ci ns h
    rw [populate_res]
    cases hidx : ci.index with
    | git _ => rfl
    | sparseCached _ => rfl
    | sparseRemote _ =>
        rw [hidx] at h
        exact absurd h (by simp [Index.isLocalRead])
  have hmemA : A.name ∈ namesOf [A, B] := by
    unfold namesOf
    rw [mem_btreeOfList]
    exact List.mem_map_of_mem Package.name ((mem_btreeOfList A [A, B]).mpr (by simp))
  have hmemB : B.name ∈ namesOf [A, B] := by
    unfold namesOf
    rw [mem_btreeOfList]
    exact List.mem_map_of_mem Package.name ((mem_btreeOfList B [A, B]).mpr (by simp))
  have hcov : ∀ q ∈ dedupOf [A, B],
      (alistLookup q.name
        (((⟨.git gi, []⟩ : CachedIndex).populate_cache (namesOf [A, B])).state.cache)).isSome := by
    intro q hq
    have hmem : q.name ∈ namesOf [A, B] := by
      unfold namesOf
      rw [mem_btreeOfList]
      exact List.mem_map_of_mem Package.name hq
    rw [populate_lookup]
    simp [popOverride, hmem]
  have heffA : ((⟨.git gi, []⟩ : CachedIndex).populate_cache
      (namesOf [A, B])).state.effectiveEntry A.name = .error eA := by
    rw [populate_eff]
    simp [popOverride, hmemA, Index.krate, hA, transformEntry, Except.map]
  have heffB : ((⟨.git gi, []⟩ : CachedIndex).populate_cache
      (namesOf [A, B])).state.effectiveEntry B.name = .ok (some (versionMapOf ikB)) := by
    rw [populate_eff]
    simp [popOverride, hmemB, Index.krate, hB, transformEntry, Except.map]
  refine ⟨hok, ?_, ?_, ?_⟩
  · rw [populate_lookup]
    simp [popOverride, Index.krate, hA, transformEntry, Except.map]
  · rw [find_yanked_all_cached _ [A, B] hcov]
    show _ ∈ preOf _ ++ _
    rw [List.mem_append]
    right
    rw [List.mem_flatMap]
    refine ⟨B, (mem_btreeOfList B [A, B]).mpr (by simp), ?_⟩
    rw [heffB]
    simp [resolveCached, caseOut, hyB]
  · rw [find_yanked_all_cached _ [A, B] hcov]
    show _ ∈ preOf _ ++ _
    rw [List.mem_append]
    right
    rw [List.mem_flatMap]
    refine ⟨A, (mem_btreeOfList A [A, B]).mpr (by simp), ?_⟩
    rw [heffA]
    simp [resolveCached, caseOut]

theorem c3_witness :
    (∀ (ci : CachedIndex) (ns : List Name), ci.index.isLocalRead = true →
        (ci.populate_cache ns).res = .ok ()) ∧
    alistLookup pAaa.name
        (((⟨.git giAB, []⟩ : CachedIndex).populate_cache [pAaa.name]).state.cache)
      = some (.error ⟨.ioErr, "disk read failed"⟩) ∧
    .ok pBbb ∈ ((⟨.git giAB, []⟩ : CachedIndex).find_yanked [pAaa, pBbb]).res ∧
    .error (registryWrapErr pAaa ⟨.ioErr, "disk read failed"⟩)
      ∈ ((⟨.git giAB, []⟩ : CachedIndex).find_yanked [pAaa, pBbb]).res :=
  c3_per_crate_failure_isolated giAB pAaa pBbb ⟨.ioErr, "disk read failed"⟩ yankedKrate
    rfl rfl rfl

theorem count_ok_caseOut (r : Except Error Bool) (q p : Package) :
    (caseOut r q).count (Except.ok p) ≤ if q = p then 1 else 0 := by
  match r with
  | .ok false =>
      by_cases h : q = p <;> simp [caseOut, h]
  | .ok true =>
      by_cases h : q = p <;>
        simp [caseOut, h, List.count_cons, List.count_nil]
  | .error e =>
      by_cases h : q = p <;>
        simp [caseOut, h, List.count_cons, List.count_nil]

theorem count_ok_resolveAll (ci : CachedIndex) (ps : List Package) (p : Package) :
    ((ci.resolveAll ps).res.count (Except.ok p)) ≤ ps.count p := by
  induction ps generalizing ci with
  | nil => simp [CachedIndex.resolveAll]
  | cons q qs ih =>
      have h1 := count_ok_caseOut (ci.is_yanked q).res q p
      have h2 := ih (ci.is_yanked q).state
      show ((caseOut (ci.is_yanked q).res q
          ++ ((ci.is_yanked q).state.resolveAll qs).res).count (Except.ok p))
        ≤ (q :: qs).count p
      rw [List.count_append, List.count_cons]
      by_cases h : q = p
      · rw [if_pos h] at h1
        rw [if_pos (beq_iff_eq.mpr h)]
        omega
      · rw [if_neg h] at h1
        rw [if_neg (by simpa using h)]
        omega

/-- C5: `find_yanked` deduplicates by full (name, version) identity via the
total order — its deduplicated set is duplicate-free and holds exactly the
distinct input packages — so the output carries at most one success entry
per package. -/
theorem c5_dedup_at_most_one_output (ci : CachedIndex) (pkgs : List Package) (p : Package) :
    (dedupOf pkgs).Nodup ∧
    (∀ q : Package, q ∈ dedupOf pkgs ↔ q ∈ pkgs) ∧
    (ci.find_yanked pkgs).res.count (Except.ok p) ≤ 1 := by
  refine ⟨nodup_btreeOfList pkgs, fun q => mem_btreeOfList q pkgs, ?_⟩
  rw [find_yanked_res_eq, List.count_append]
  have hpre : (preOf (ci.populate_cache (namesOf pkgs)).res).count (Except.ok p) = 0 := by
    unfold preOf
    cases (ci.populate_cache (namesOf pkgs)).res <;>
      simp [List.count_cons, List.count_nil]
  have hloop := count_ok_resolveAll (ci.populate_cache (namesOf pkgs)).state (dedupOf pkgs) p
  have hdd : (dedupOf pkgs).count p ≤ 1 :=
    List.nodup_iff_count_le_one.mp (nodup_btreeOfList pkgs) p
  omega

/-- C7: a zero lock timeout selects the immediate-fail acquisition policy
and any positive timeout selects the wait-with-backoff policy bounded by
exactly that duration; `open_inner` and `fetch_inner` consult exactly this
selection on the git path. -/
theorem c7_lock_policy_selection (gi : GitIndex) (t : Nat) :
    (t = 0 → new_remote_git_index gi t = gi.withOptions LockPolicy.failImmediately) ∧
    (0 < t → new_remote_git_index gi t
        = gi.withOptions (LockPolicy.afterDurationWithBackoff t)) ∧
    (∀ rgi, new_remote_git_index gi t = .ok rgi →
        open_inner (.ok (.git gi)) t = .okIdx ⟨.git rgi, []⟩) ∧
    (∀ e, new_remote_git_index gi t = .error e →
        open_inner (.ok (.git gi)) t = .err e) ∧
    (∀ (mkRemote : SparseIndex → Client → RemoteSparseIndex)
        (defaultCB : ClientBuilder) (client : Option ClientBuilder) (e : Error),
      new_remote_git_index gi t = .error e →
        fetch_inner mkRemote defaultCB client (.ok (.git gi)) t = .err e) := by
  refine ⟨?_, ?_, ?_, ?_, ?_⟩
  · intro h
    subst h
    rfl
  · intro h
    unfold new_remote_git_index
    dsimp only
    rw [if_neg (Nat.pos_iff_ne_zero.mp h)]
  · intro rgi h
    unfold open_inner
    dsimp only
    rw [h]
  · intro e h
    unfold open_inner
    dsimp only
    rw [h]
  · intro mkRemote defaultCB client e h
    unfold fetch_inner
    dsimp only
    rw [h]

theorem c7_witness :
    new_remote_git_index giHeld 0 = giHeld.withOptions LockPolicy.failImmediately ∧
    new_remote_git_index giHeld 5
      = giHeld.withOptions (LockPolicy.afterDurationWithBackoff 5) ∧
    open_inner (.ok (.git giHeld)) 5 = .okIdx ⟨.git giFoo, []⟩ ∧
    open_inner (.ok (.git giHeld)) 0 = .err ⟨.lockTimeout, "lock is held"⟩ ∧
    fetch_inner (fun _ _ => rsiEmpty) ⟨.ok Client.mk⟩ none (.ok (.git giHeld)) 0
      = .err ⟨.lockTimeout, "lock is held"⟩ :=
  ⟨(c7_lock_policy_selection giHeld 0).1 rfl,
   (c7_lock_policy_selection giHeld 5).2.1 (by decide),
   (c7_lock_policy_selection giHeld 5).2.2.1 giFoo rfl,
   (c7_lock_policy_selection giHeld 0).2.2.2.1 ⟨.lockTimeout, "lock is held"⟩ rfl,
   (c7_lock_policy_selection giHeld 0).2.2.2.2 (fun _ _ => rsiEmpty) ⟨.ok Client.mk⟩ none
     ⟨.lockTimeout, "lock is held"⟩ rfl⟩

/-- C8 counterexample: on an unrecognized index form, `open_inner` and
`fetch_inner` do not return an error at all — they hit the Rust `panic!`
arm — refuting that they fail by returning a (RegistryUnsupported) error
rather than by any other means. -/
theorem c8_counterexample :
    (open_inner (.ok .other) 0).isPanicked = true ∧
    (open_inner (.ok .other) 0).isErr = false ∧
    (fetch_inner (fun _ _ => rsiEmpty) ⟨.ok Client.mk⟩ none (.ok .other) 0).isPanicked
      = true ∧
    (fetch_inner (fun _ _ => rsiEmpty) ⟨.ok Client.mk⟩ none (.ok .other) 0).isErr
      = false :=
  ⟨rfl, rfl, rfl, rfl⟩

/-- C8 (amended): when the registry location resolves to neither recognized
index form, `open` and `fetch` fail fast — but by a Rust `panic!` with the
message `Unsupported crates.io index type`, not by returning an error. -/
theorem c8_amended_unsupported_index_panics (t : Nat)
    (mkRemote : SparseIndex → Client → RemoteSparseIndex)
    (defaultCB : ClientBuilder) (client : Option ClientBuilder) :
    open_inner (.ok .other) t = .panicked "Unsupported crates.io index type" ∧
    fetch_inner mkRemote defaultCB client (.ok .other) t
      = .panicked "Unsupported crates.io index type" :=
  ⟨rfl, rfl⟩

/-- C10: on the remote sparse backend, the single-name lookup used by the
cache-miss fallback is `cached_krate`: it depends only on the local cache
read, never on the networked batch capability, so a missed name resolves
from local data, or reports the crate as absent when the local cache has no
entry for it. -/
theorem c10_remote_fallback_is_local_only (rsi : RemoteSparseIndex)
    (cache : List (Name × Entry)) (p : Package) :
    Index.krate (.sparseRemote rsi) p.name = rsi.cached_krate p.name ∧
    (∀ rsi2 : RemoteSparseIndex, rsi2.cached_krate = rsi.cached_krate →
        Index.krate (.sparseRemote rsi2) p.name = Index.krate (.sparseRemote rsi) p.name) ∧
    (alistLookup p.name cache = none →
      ((⟨.sparseRemote rsi, cache⟩ : CachedIndex).is_yanked p).res
          = resolveCached (transformEntry (rsi.cached_krate p.name)) p ∧
      ((⟨.sparseRemote rsi, cache⟩ : CachedIndex).is_yanked p).events
          = [FetchEvent.single p.name]) ∧
    (alistLookup p.name cache = none → rsi.cached_krate p.name = .ok none →
      ((⟨.sparseRemote rsi, cache⟩ : CachedIndex).is_yanked p).res
          = .error (noSuchCrateErr p)) := by
  refine ⟨rfl, ?_, ?_, ?_⟩
  · intro rsi2 h
    show rsi2.cached_krate p.name = rsi.cached_krate p.name
    rw [h]
  · intro hn
    unfold CachedIndex.is_yanked
    constructor <;> simp [hn, Index.krate]
  · intro hn hk
    unfold CachedIndex.is_yanked
    simp [hn, Index.krate, hk, transformEntry, resolveCached, Except.map]

theorem c10_witness :
    Index.krate (.sparseRemote rsiEmpty) pFoo.name = rsiEmpty.cached_krate pFoo.name ∧
    ((⟨.sparseRemote rsiEmpty, []⟩ : CachedIndex).is_yanked pFoo).events
      = [FetchEvent.single pFoo.name] ∧
    ((⟨.sparseRemote rsiEmpty, []⟩ : CachedIndex).is_yanked pFoo).res
      = .error (noSuchCrateErr pFoo) :=
  ⟨(c10_remote_fallback_is_local_only rsiEmpty [] pFoo).1,
   ((c10_remote_fallback_is_local_only rsiEmpty [] pFoo).2.2.1 rfl).2,
   (c10_remote_fallback_is_local_only rsiEmpty [] pFoo).2.2.2 rfl rfl⟩

end Rustsec
